import Mathlib

/-!
Verification of the chunked parallel fetch–merge–filter pipeline of
`src/main.py` (Google Search Console export tool).

The relevant Python functions are shallowly embedded as Lean functions:

* the chunk-list construction loop of `fetch_gsc_data_parallel`
  (lines 240–249) becomes `buildChunks`;
* the `as_completed` collection loop with its per-chunk `try/except`
  (lines 271–277) becomes `collectResults`, acting on a list of settled
  chunk outcomes (`Except` models a raised exception);
* `pd.concat` + `drop_duplicates` (lines 280–288) become `mergeStep`;
* the zero-click filter (lines 290–292) becomes `dropZeroClicksStep`;
* the keyword include/exclude filters (lines 294–303) become
  `includeStep` / `excludeStep`;
* the query-filter construction of `_fetch_chunk_threaded`
  (lines 209–214) becomes `chunkQueryFilters`;
* `compare_data` (lines 431–439) becomes `compare_data`;
* the body of `fetch_compare_data_single` (lines 347–357) becomes
  `fetch_compare_data_single`, acting on the settled remote result.

Dates are modelled as proleptic-Gregorian day ordinals (`Nat`), exactly
the representation `datetime.date.toordinal` uses; adding a
`timedelta(days = k)` is adding `k`.  Report rows carry the two forced
dimensions (`page`, `query`) and the four metrics; the two fractional
metrics (`ctr`, `position`) enter the pipeline only through equality
tests (row identity for `drop_duplicates`), so they are modelled as `ℚ`.
Strings are compared exactly as Python does for the operations used
(splitting on `","`, stripping whitespace, ASCII lowercasing,
substring containment).
-/

/-- One report row as produced by `query.get().to_dataframe()`: the two
forced dimensions and the four metrics.  Row identity (used by
`drop_duplicates`) is structural equality of all six fields. -/
structure Row where
  page : String
  query : String
  clicks : Nat
  impressions : Nat
  ctr : ℚ
  position : ℚ
deriving DecidableEq, Repr

/-- A date range `(chunk_start, chunk_end)`, both inclusive, as day ordinals. -/
abbrev DateRange := Nat × Nat

/-- The constant `chunk_size_days = 30` of `fetch_gsc_data_parallel`. -/
def chunk_size_days : Nat := 30

/-- The chunk-building loop of `fetch_gsc_data_parallel`:

    while current_start <= end_date:
        chunk_end = current_start + timedelta(days=chunk_size_days - 1)
        if chunk_end > end_date: chunk_end = end_date
        chunks.append((current_start, chunk_end))
        current_start = chunk_end + timedelta(days=1)

embedded with an explicit iteration bound (the loop advances
`current_start` by at least one day per iteration, so `e + 1 - s`
iterations always suffice). -/
def buildChunksAux : Nat → Nat → Nat → List DateRange
  | 0, _, _ => []
  | fuel + 1, s, e =>
    if s ≤ e then
      (s, min (s + (chunk_size_days - 1)) e) ::
        buildChunksAux fuel (min (s + (chunk_size_days - 1)) e + 1) e
    else []

/-- The chunk list built by `fetch_gsc_data_parallel` for the range
`[s, e]`. -/
def buildChunks (s e : Nat) : List DateRange :=
  buildChunksAux (e + 1 - s) s e

/-- All days covered by a chunk list, in order: chunk `(a, b)` covers the
inclusive day interval `[a, b]`. -/
def chunkDays (cs : List DateRange) : List Nat :=
  cs.flatMap (fun c => List.range' c.1 (c.2 + 1 - c.1))

/-! ### String operations

The keyword filters use Python `str.split(",")`, `str.strip()`,
case-insensitive substring containment (`Series.str.contains` with
`case=False`), and `str.lower()`.  They are embedded below on `List Char`
(structural recursion, so every operation evaluates by `decide`). -/

/-- ASCII lowercasing of a character list (`str.lower()` on the ASCII
strings the filters operate on). -/
def lowerL (s : List Char) : List Char := s.map Char.toLower

/-- `pat` is an initial segment of `s`. -/
def startsWithL : List Char → List Char → Bool
  | _, [] => true
  | [], _ :: _ => false
  | c :: cs, d :: ds => c == d && startsWithL cs ds

/-- `pat` occurs contiguously somewhere in `s` (Python `pat in s`). -/
def containsSub : List Char → List Char → Bool
  | [], pat => pat.isEmpty
  | c :: rest, pat => startsWithL (c :: rest) pat || containsSub rest pat

/-- Case-insensitive containment of `pat` in `hay`, the semantics of
`Series.str.contains(pat, case=False, na=False)` for a literal pattern
(the alternation pattern `"|".join(keywords)` built by the include filter
matches exactly when some literal keyword token matches). -/
def containsTokenCI (hay pat : List Char) : Bool :=
  containsSub (lowerL hay) (lowerL pat)

/-- Python `s.split(",")`: splits at every comma, keeps empty pieces,
and yields `[""]` on the empty string. -/
def splitOnComma : List Char → List (List Char)
  | [] => [[]]
  | c :: rest =>
    if c = ',' then [] :: splitOnComma rest
    else
      match splitOnComma rest with
      | [] => [[c]]
      | piece :: pieces => (c :: piece) :: pieces

/-- Python `s.strip()`: drop leading and trailing whitespace. -/
def stripChars (s : List Char) : List Char :=
  ((s.dropWhile Char.isWhitespace).reverse.dropWhile Char.isWhitespace).reverse

/-- `keywords = [kw.strip() for kw in filter_keywords.split(",")]`. -/
def keywordTokens (s : String) : List (List Char) :=
  (splitOnComma s.data).map stripChars

/-! ### The coordinator and the merge/filter steps of
`fetch_gsc_data_parallel` -/

/-- One settled chunk fetch: the chunk's date range together with either
the rows `_fetch_chunk_threaded` returned or the exception it raised
(carried as a message string). -/
structure ChunkOutcome where
  range : DateRange
  result : Except String (List Row)

/-- The `as_completed` collection loop (lines 271–277): each settled
future either appends its dataframe to `results` or is reported as a
non-fatal per-chunk error naming its date range.  The outcome list is
given in settled (completion) order. -/
def collectResults : List ChunkOutcome → List (List Row) × List (DateRange × String)
  | [] => ([], [])
  | o :: rest =>
    match o.result, collectResults rest with
    | .ok df, (rs, ws) => (df :: rs, ws)
    | .error e, (rs, ws) => (rs, (o.range, e) :: ws)

/-- `DataFrame.drop_duplicates(subset = ["page","query","clicks",
"impressions","ctr","position"], keep = "first")`: keep the first
occurrence of every full-identity row, drop later occurrences.  `seen`
accumulates the identities already emitted. -/
def dropDuplicatesAux (seen : List Row) : List Row → List Row
  | [] => []
  | r :: rest =>
    if r ∈ seen then dropDuplicatesAux seen rest
    else r :: dropDuplicatesAux (r :: seen) rest

/-- `drop_duplicates` over the full six-column row identity. -/
def dropDuplicates (l : List Row) : List Row := dropDuplicatesAux [] l

/-- Step 3 of `fetch_gsc_data_parallel` (lines 279–288): if any chunk
succeeded, concatenate all chunk tables and drop full-identity
duplicates; otherwise the empty table. -/
def mergeStep (results : List (List Row)) : List Row :=
  if results.isEmpty then [] else dropDuplicates results.flatten

/-- Step 4 (lines 290–292): `if not df_all.empty:
df_all = df_all[df_all["clicks"] > 0]`. -/
def dropZeroClicksStep (l : List Row) : List Row :=
  if l.isEmpty then l else l.filter (fun r => 0 < r.clicks)

/-- The include-filter predicate on one query value in its
literal-token reading: some stripped keyword token is a
case-insensitive substring of the query.  The source's
`df_all["query"].str.contains("|".join(keywords), case=False, na=False)`
interprets the joined pattern as a regular expression
(pandas defaults to `regex=True`); the regex-faithful embedding of
that call is `includeStepRe` below, which provably coincides with
this literal reading exactly when no stripped keyword contains a
regex metacharacter. -/
def includeMatch (filter_keywords : String) (q : String) : Bool :=
  (keywordTokens filter_keywords).any (fun kw => containsTokenCI q.data kw)

/-- The keyword-include filter (lines 296–298) in the literal-token
reading of `includeMatch`; the regex-faithful version is
`includeStepRe`. -/
def includeStep (filter_keywords : String) (l : List Row) : List Row :=
  l.filter (fun r => includeMatch filter_keywords r.query)

/-- The keyword-exclude loop (lines 300–303) in the literal-token
reading: for each comma-separated piece, strip it and drop the rows
whose query contains it case-insensitively; the filters apply in
sequence.  The source's per-keyword
`str.contains(kw_not, case=False, na=False)` interprets `kw_not` as a
regular expression (pandas defaults to `regex=True`); the
regex-faithful embedding is `excludeStepRe` below, which provably
coincides with this literal reading exactly when no stripped exclusion
keyword contains a regex metacharacter. -/
def excludeStep (filter_keywords_not : String) (l : List Row) : List Row :=
  (splitOnComma filter_keywords_not.data).foldl
    (fun acc kw =>
      acc.filter (fun r => !(containsTokenCI r.query.data (stripChars kw)))) l

/-! ### The regex-faithful reading of the keyword filters

Pandas `Series.str.contains(pat, case=False, na=False)` treats `pat`
as a Python regular expression (`regex=True` is the default) compiled
with `re.IGNORECASE`, and keeps a row when `re.search` finds a match
anywhere in the value.  The patterns the two filters build are the
alternation `"|".join(keywords)` and each stripped `kw_not`.  The
fragment of Python regex syntax embedded here is exactly what is
needed for such patterns: literal characters, the metacharacter `.`
(any character except a newline) and top-level alternation `|`.  A
pattern containing any other regex metacharacter is outside the
fragment and is mapped to `none`: on such patterns the source either
matches under full regex semantics or raises `re.error` out of
`fetch_gsc_data_parallel`, and no theorem below traverses that
case. -/

/-- One element of a supported regex alternation branch: a literal
character, or `.` which matches any character except a newline. -/
inductive RegexElem
  | lit (c : Char)
  | dot

/-- The characters Python `re` treats as metacharacters outside
character classes. -/
def isRegexMeta (c : Char) : Bool :=
  c = '.' || c = '^' || c = '$' || c = '*' || c = '+' || c = '?' ||
  c = '{' || c = '}' || c = '[' || c = ']' || c = '\\' || c = '|' ||
  c = '(' || c = ')'

/-- `"|".join(keywords)` on character lists. -/
def joinBar : List (List Char) → List Char
  | [] => []
  | [k] => k
  | k :: ks => k ++ '|' :: joinBar ks

/-- Splitting a pattern at every top-level `|`, the alternation
structure `re` gives it (the patterns in scope contain no groups). -/
def splitOnBar : List Char → List (List Char)
  | [] => [[]]
  | c :: rest =>
    if c = '|' then [] :: splitOnBar rest
    else
      match splitOnBar rest with
      | [] => [[c]]
      | piece :: pieces => (c :: piece) :: pieces

/-- Compile one alternation branch: `.` becomes the any-character
element, a non-metacharacter a literal; any other metacharacter puts
the pattern outside the embedded fragment. -/
def compileBranch : List Char → Option (List RegexElem)
  | [] => some []
  | c :: rest =>
    match compileBranch rest with
    | none => none
    | some es =>
      if c = '.' then some (.dot :: es)
      else if isRegexMeta c then none
      else some (.lit c :: es)

/-- Compile a whole pattern: split at `|` and compile every branch;
one unsupported branch puts the whole pattern outside the fragment
(Python compiles the pattern as a whole). -/
def compileAlternation (pat : List Char) : Option (List (List RegexElem)) :=
  (splitOnBar pat).foldr
    (fun b acc =>
      match compileBranch b, acc with
      | some eb, some ebs => some (eb :: ebs)
      | _, _ => none)
    (some [])

/-- The branch matches a prefix of `s`, case-insensitively
(`re.IGNORECASE`); `.` matches any character except a newline. -/
def branchMatchesAt : List RegexElem → List Char → Bool
  | [], _ => true
  | _ :: _, [] => false
  | .lit c :: es, d :: ds => (Char.toLower c == Char.toLower d) && branchMatchesAt es ds
  | .dot :: es, d :: ds => (d != '\n') && branchMatchesAt es ds

/-- `re.search` for one branch: it matches at some position of `s`. -/
def branchSearch : List RegexElem → List Char → Bool
  | es, [] => es.isEmpty
  | es, c :: rest => branchMatchesAt es (c :: rest) || branchSearch es rest

/-- The regex-faithful keyword-include filter (lines 296–298):
`df_all[df_all["query"].str.contains("|".join(keywords), case=False,
na=False)]` with the joined pattern read as a regular expression;
`none` when the pattern falls outside the embedded fragment. -/
def includeStepRe (filter_keywords : String) (l : List Row) :
    Option (List Row) :=
  match compileAlternation (joinBar (keywordTokens filter_keywords)) with
  | none => none
  | some branches =>
    some (l.filter (fun r => branches.any (fun es => branchSearch es r.query.data)))

/-- One iteration of the regex-faithful exclude loop: compile the
stripped exclusion keyword as a pattern and drop the rows it
matches; an already-failed state or an unsupported pattern yields
`none`. -/
def reExcludeOne (acc : Option (List Row)) (kw : List Char) : Option (List Row) :=
  match acc with
  | none => none
  | some cur =>
    match compileAlternation (stripChars kw) with
    | none => none
    | some branches =>
      some (cur.filter (fun r => !(branches.any (fun es => branchSearch es r.query.data))))

/-- The regex-faithful keyword-exclude loop (lines 300–303): each
stripped comma-separated piece is read as a regular expression. -/
def excludeStepRe (filter_keywords_not : String) (l : List Row) :
    Option (List Row) :=
  (splitOnComma filter_keywords_not.data).foldl reExcludeOne (some l)

/-- Steps 4–5 of `fetch_gsc_data_parallel` after the merge: the
zero-click filter, then (while the table is non-empty) the keyword
include and exclude filters, each guarded by Python truthiness of its
argument (`""` models both `None` and the empty string). -/
def postProcess (filter_keywords filter_keywords_not : String)
    (l : List Row) : List Row :=
  let df1 := dropZeroClicksStep l
  if df1.isEmpty then df1
  else
    let df2 := if filter_keywords ≠ "" then includeStep filter_keywords df1 else df1
    if filter_keywords_not ≠ "" then excludeStep filter_keywords_not df2 else df2

/-- `fetch_gsc_data_parallel` from the point where all futures have
settled: collect per-chunk outcomes, merge and deduplicate the
successful tables, apply the post-fetch filters; the per-chunk errors
are returned alongside (they are written as warnings, never re-raised).
The whole coordinator is a total function of the settled outcomes. -/
def fetch_gsc_data_parallel (outcomes : List ChunkOutcome)
    (filter_keywords filter_keywords_not : String) :
    List Row × List (DateRange × String) :=
  let c := collectResults outcomes
  (postProcess filter_keywords filter_keywords_not (mergeStep c.1), c.2)

/-! ### `compare_data`, `fetch_compare_data_single`, and the per-chunk
query filters -/

/-- One row of the table `compare_data` returns: the join key, both
sides' metrics with the `_current` / `_compare` suffixes
`DataFrame.merge` appends, and the two computed diff columns. -/
structure CompRow where
  page : String
  query : String
  clicks_current : Nat
  impressions_current : Nat
  ctr_current : ℚ
  position_current : ℚ
  clicks_compare : Nat
  impressions_compare : Nat
  ctr_compare : ℚ
  position_compare : ℚ
  clicks_diff : Int
  impressions_diff : Int
deriving DecidableEq, Repr

/-- One joined row: current-side row `r` paired with compare-side row
`s` (their `page` and `query` agree), with
`clicks_diff = clicks_current - clicks_compare` and
`impressions_diff = impressions_current - impressions_compare`. -/
def joinRow (r s : Row) : CompRow :=
  { page := r.page
    query := r.query
    clicks_current := r.clicks
    impressions_current := r.impressions
    ctr_current := r.ctr
    position_current := r.position
    clicks_compare := s.clicks
    impressions_compare := s.impressions
    ctr_compare := s.ctr
    position_compare := s.position
    clicks_diff := (r.clicks : Int) - (s.clicks : Int)
    impressions_diff := (r.impressions : Int) - (s.impressions : Int) }

/-- `compare_data` (lines 431–439): `report.merge(compare_report,
on=["page","query"], suffixes=("_current","_compare"))` — an inner
equi-join on the key tuple `(page, query)` (pandas' default
`how="inner"`), pairing every current-side row with every compare-side
row whose key agrees — followed by the two diff columns. -/
def compare_data (report compare_report : List Row) : List CompRow :=
  report.flatMap (fun r =>
    (compare_report.filter (fun s => r.page == s.page && r.query == s.query)).map
      (joinRow r))

/-- The body of `fetch_compare_data_single` (lines 347–357) from the
point where the remote call has settled: on success the fetched rows
with zero-click rows removed, on any exception (`except Exception`) an
empty table; the exception is reported, never re-raised. -/
def fetch_compare_data_single (remote : Except String (List Row)) : List Row :=
  match remote with
  | .ok df => df.filter (fun r => 0 < r.clicks)
  | .error _ => []

/-- One dimension filter handed to the remote query layer by
`query.filter(dimension, operator, expression)`. -/
structure QFilter where
  dimension : String
  operator : String
  expression : String
deriving DecidableEq, Repr

/-- The filter construction of `_fetch_chunk_threaded` (lines 209–214):

    if filter_url:
        query = query.filter("page", "contains", filter_url)
    if device_type and device_type != "All Devices":
        query = query.filter("device", "equals", device_type.lower())

`filter_url` is passed through verbatim as the expression of a filter
whose operator is the hard-coded `"contains"`; the device filter uses
the hard-coded `"equals"`.  (`""` models Python `None` for both
arguments; `.lower()` is ASCII lowercasing.) -/
def chunkQueryFilters (filter_url device_type : String) : List QFilter :=
  (if filter_url ≠ "" then [⟨"page", "contains", filter_url⟩] else []) ++
  (if device_type ≠ "" ∧ device_type ≠ "All Devices" then
    [⟨"device", "equals", String.mk (lowerL device_type.data)⟩] else [])

/-! ### Concrete rows used to instantiate the theorems -/

def rowRedShoes : Row :=
  { page := "https://example.com/a", query := "red shoes",
    clicks := 3, impressions := 50, ctr := 0, position := 2 }

def rowBlueShoes : Row :=
  { page := "https://example.com/b", query := "blue shoes",
    clicks := 2, impressions := 40, ctr := 0, position := 3 }

def rowRedHat : Row :=
  { page := "https://example.com/c", query := "red hat",
    clicks := 5, impressions := 80, ctr := 0, position := 1 }

def sampleRows : List Row := [rowRedShoes, rowBlueShoes, rowRedHat]

def rowP1Current : Row :=
  { page := "p1", query := "q1", clicks := 10, impressions := 100,
    ctr := 0, position := 1 }

def rowP1Compare : Row :=
  { page := "p1", query := "q1", clicks := 4, impressions := 40,
    ctr := 0, position := 2 }

def rowP2Current : Row :=
  { page := "p2", query := "q2", clicks := 5, impressions := 50,
    ctr := 0, position := 4 }

def rowZeroClicks : Row :=
  { page := "https://example.com/z", query := "zero", clicks := 0,
    impressions := 7, ctr := 0, position := 9 }

/-! ## Lemmas about the chunk-building loop -/

theorem buildChunksAux_nil (fuel s e : Nat) (h : e < s) :
    buildChunksAux fuel s e = [] := by
  cases fuel with
  | zero => rfl
  | succ n => rw [buildChunksAux, if_neg (Nat.not_le.mpr h)]

theorem chunkDays_nil : chunkDays [] = [] := rfl

theorem chunkDays_cons (c : DateRange) (cs : List DateRange) :
    chunkDays (c :: cs) = List.range' c.1 (c.2 + 1 - c.1) ++ chunkDays cs := by
  simp [chunkDays]

theorem range'_glue (s m e : Nat) (h1 : s ≤ m) (h2 : m ≤ e) :
    List.range' s (m + 1 - s) ++ List.range' (m + 1) (e + 1 - (m + 1)) =
      List.range' s (e + 1 - s) := by
  have h3 : m + 1 = s + (m + 1 - s) := by omega
  calc List.range' s (m + 1 - s) ++ List.range' (m + 1) (e + 1 - (m + 1))
      = List.range' s (m + 1 - s) ++
          List.range' (s + (m + 1 - s)) (e + 1 - (m + 1)) := by rw [← h3]
    _ = List.range' s (e + 1 - (m + 1) + (m + 1 - s)) :=
        List.range'_append_1 s (m + 1 - s) (e + 1 - (m + 1))
    _ = List.range' s (e + 1 - s) := by congr 1; omega

theorem chunkDays_buildChunksAux :
    ∀ (fuel s e : Nat), e + 1 - s ≤ fuel →
      chunkDays (buildChunksAux fuel s e) = List.range' s (e + 1 - s)
  | 0, s, e, h => by
    have h0 : e + 1 - s = 0 := Nat.le_zero.mp h
    simp [buildChunksAux, chunkDays, h0]
  | fuel + 1, s, e, h => by
    by_cases hse : s ≤ e
    · have hsm : s ≤ min (s + (chunk_size_days - 1)) e :=
        le_min (Nat.le_add_right _ _) hse
      have hme : min (s + (chunk_size_days - 1)) e ≤ e := min_le_right _ _
      have ih := chunkDays_buildChunksAux fuel
        (min (s + (chunk_size_days - 1)) e + 1) e (by omega)
      rw [buildChunksAux, if_pos hse, chunkDays_cons, ih]
      dsimp only
      exact range'_glue s (min (s + (chunk_size_days - 1)) e) e hsm hme
    · rw [buildChunksAux, if_neg hse, chunkDays_nil]
      rw [show e + 1 - s = 0 from by omega]
      simp

theorem buildChunksAux_bounds :
    ∀ (fuel s e : Nat), ∀ c ∈ buildChunksAux fuel s e,
      s ≤ c.1 ∧ c.1 ≤ c.2 ∧ c.2 ≤ e ∧ c.2 + 1 - c.1 ≤ chunk_size_days
  | 0, _, _ => by simp [buildChunksAux]
  | fuel + 1, s, e => by
    intro c hc
    by_cases hse : s ≤ e
    · rw [buildChunksAux, if_pos hse] at hc
      rcases List.mem_cons.mp hc with h | h
      · subst h
        simp only [chunk_size_days]
        omega
      · have ih := buildChunksAux_bounds fuel
          (min (s + (chunk_size_days - 1)) e + 1) e c h
        simp only [chunk_size_days] at ih ⊢
        omega
    · rw [buildChunksAux, if_neg hse] at hc
      simp at hc

theorem buildChunksAux_last :
    ∀ (fuel s e : Nat), e + 1 - s ≤ fuel → s ≤ e →
      ((buildChunksAux fuel s e).getLast?).map Prod.snd = some e
  | 0, s, e, h, hse => by omega
  | fuel + 1, s, e, h, hse => by
    rw [buildChunksAux, if_pos hse]
    by_cases hend : e ≤ s + (chunk_size_days - 1)
    · rw [min_eq_right hend, buildChunksAux_nil fuel (e + 1) e (Nat.lt_succ_self e)]
      rfl
    · have hm : min (s + (chunk_size_days - 1)) e = s + (chunk_size_days - 1) :=
        min_eq_left (le_of_not_le hend)
      have ih := buildChunksAux_last fuel
        (min (s + (chunk_size_days - 1)) e + 1) e
        (by simp only [chunk_size_days] at *; omega)
        (by simp only [chunk_size_days] at *; omega)
      cases hfuel : buildChunksAux fuel (min (s + (chunk_size_days - 1)) e + 1) e
          with
      | nil =>
        rw [hfuel] at ih
        simp at ih
      | cons a as =>
        rw [hfuel] at ih
        rw [List.getLast?_cons_cons]
        exact ih


/-- C1: for every start and end date with start ≤ end, the chunk list
built by `fetch_gsc_data_parallel` with its fixed 30-day chunk size is
ordered, non-overlapping and exactly covers `[start, end]` with no gaps
(its chunks' day intervals concatenate to the interval `[start, end]`
listed in increasing order), every chunk spans at most 30 days, and the
last chunk is truncated to the end date; when start > end the chunk
list is empty. -/
theorem chunking_covers_range (s e : Nat) :
    (e < s → buildChunks s e = []) ∧
    chunkDays (buildChunks s e) = List.range' s (e + 1 - s) ∧
    (∀ c ∈ buildChunks s e, c.1 ≤ c.2 ∧ c.2 + 1 - c.1 ≤ chunk_size_days) ∧
    (s ≤ e → ((buildChunks s e).getLast?).map Prod.snd = some e) := by
  refine ⟨fun hlt => buildChunksAux_nil _ s e hlt,
    chunkDays_buildChunksAux _ s e (Nat.le_refl _),
    fun c hc => ?_,
    fun hse => buildChunksAux_last _ s e (Nat.le_refl _) hse⟩
  have hb := buildChunksAux_bounds _ s e c hc
  exact ⟨hb.2.1, hb.2.2.2⟩

/-- Instantiation of the C1 theorem on the spec's end-to-end scenario:
start = 2024-01-01 (day ordinal 738886), end = 2024-02-15 (day ordinal
738931, a 46-day range) yields exactly the two chunks
2024-01-01..2024-01-30 and 2024-01-31..2024-02-15. -/
theorem chunking_covers_range_example :
    buildChunks 738886 738931 = [(738886, 738915), (738916, 738931)] ∧
    chunkDays (buildChunks 738886 738931) = List.range' 738886 46 := by
  refine ⟨by decide, ?_⟩
  have h := (chunking_covers_range 738886 738931).2.1
  rw [show (738931 + 1 - 738886 : Nat) = 46 from by norm_num] at h
  exact h

/-! ## Lemmas about `drop_duplicates` and the merge step -/

theorem mem_dropDuplicatesAux (a : Row) (l : List Row) :
    ∀ seen, a ∈ dropDuplicatesAux seen l ↔ a ∈ l ∧ a ∉ seen := by
  induction l with
  | nil =>
    intro seen
    simp [dropDuplicatesAux]
  | cons r rest ih =>
    intro seen
    by_cases hr : r ∈ seen
    · rw [dropDuplicatesAux, if_pos hr, ih seen]
      constructor
      · rintro ⟨h1, h2⟩
        exact ⟨List.mem_cons_of_mem _ h1, h2⟩
      · rintro ⟨h1, h2⟩
        rcases List.mem_cons.mp h1 with rfl | h1
        · exact absurd hr h2
        · exact ⟨h1, h2⟩
    · rw [dropDuplicatesAux, if_neg hr]
      simp only [List.mem_cons, ih (r :: seen)]
      constructor
      · rintro (rfl | ⟨h1, h2⟩)
        · exact ⟨Or.inl rfl, hr⟩
        · exact ⟨Or.inr h1, fun hs => h2 (Or.inr hs)⟩
      · rintro ⟨h1 | h1, h2⟩
        · exact Or.inl h1
        · by_cases har : a = r
          · exact Or.inl har
          · refine Or.inr ⟨h1, fun hs => ?_⟩
            rcases hs with h | h
            · exact har h
            · exact h2 h

theorem nodup_dropDuplicatesAux (l : List Row) :
    ∀ seen, (dropDuplicatesAux seen l).Nodup := by
  induction l with
  | nil =>
    intro seen
    simp [dropDuplicatesAux]
  | cons r rest ih =>
    intro seen
    by_cases hr : r ∈ seen
    · rw [dropDuplicatesAux, if_pos hr]
      exact ih seen
    · rw [dropDuplicatesAux, if_neg hr]
      refine List.nodup_cons.mpr ⟨fun hmem => ?_, ih (r :: seen)⟩
      exact ((mem_dropDuplicatesAux r rest (r :: seen)).mp hmem).2
        (List.mem_cons_self r seen)

theorem mem_dropDuplicates {a : Row} {l : List Row} :
    a ∈ dropDuplicates l ↔ a ∈ l := by
  rw [dropDuplicates, mem_dropDuplicatesAux]
  simp

theorem nodup_dropDuplicates (l : List Row) : (dropDuplicates l).Nodup :=
  nodup_dropDuplicatesAux l []

theorem count_dropDuplicates {a : Row} {l : List Row} (h : a ∈ l) :
    (dropDuplicates l).count a = 1 :=
  List.count_eq_one_of_mem (nodup_dropDuplicates l) (mem_dropDuplicates.mpr h)

theorem mem_mergeStep {a : Row} {results : List (List Row)} :
    a ∈ mergeStep results ↔ a ∈ results.flatten := by
  rw [mergeStep]
  by_cases h : results.isEmpty
  · rw [if_pos h]
    rcases List.isEmpty_iff.mp h with rfl
    simp
  · rw [if_neg h]
    exact mem_dropDuplicates

/-- C3: after the merge step's `drop_duplicates`, any row whose full
identity tuple (page, query, clicks, impressions, ctr, position) occurs
several times across the concatenated chunk tables (or several times in
one chunk) appears exactly once in the merged table, and every row value
occurring anywhere in the input still occurs in the output — rows
differing in any dimension value or any metric are distinct values and
are all retained. -/
theorem merge_dedup_exactly_once (tables : List (List Row)) (r : Row) :
    (r ∈ tables.flatten → (mergeStep tables).count r = 1) ∧
    (r ∈ mergeStep tables ↔ r ∈ tables.flatten) := by
  constructor
  · intro h
    have hne : tables.isEmpty = false := by
      cases tables with
      | nil => simp at h
      | cons t ts => rfl
    rw [mergeStep, if_neg (by simp [hne])]
    exact count_dropDuplicates h
  · exact mem_mergeStep

/-- Instantiation of the C3 theorem: `rowRedShoes` occurs in two
different chunks and once more inside the first chunk, and the merged
table contains it exactly once. -/
theorem merge_dedup_exactly_once_example :
    (mergeStep [[rowRedShoes, rowRedShoes, rowRedHat], [rowRedShoes]]).count rowRedShoes = 1 ∧
    mergeStep [[rowRedShoes, rowRedShoes, rowRedHat], [rowRedShoes]] = [rowRedShoes, rowRedHat] :=
  ⟨(merge_dedup_exactly_once [[rowRedShoes, rowRedShoes, rowRedHat], [rowRedShoes]]
      rowRedShoes).1 (by decide), by decide⟩

/-! ## Lemmas about the coordinator's collection loop -/

theorem collectResults_ok_mem :
    ∀ (outcomes : List ChunkOutcome), ∀ o ∈ outcomes, ∀ df : List Row,
      o.result = .ok df → df ∈ (collectResults outcomes).1
  | [], o, ho, _, _ => absurd ho (List.not_mem_nil o)
  | o' :: rest, o, ho, df, hdf => by
    rw [collectResults]
    rcases List.mem_cons.mp ho with rfl | ho'
    · rw [hdf]
      rcases hr : collectResults rest with ⟨rs, ws⟩
      simp
    · have ih := collectResults_ok_mem rest o ho' df hdf
      rcases hr : collectResults rest with ⟨rs, ws⟩
      rw [hr] at ih
      rcases o'.result with e | df'
      · simpa using ih
      · simpa using Or.inr ih

theorem collectResults_warnings :
    ∀ outcomes : List ChunkOutcome,
      (collectResults outcomes).2 = outcomes.filterMap
        (fun o => match o.result with
          | .error e => some (o.range, e)
          | .ok _ => none)
  | [] => rfl
  | o :: rest => by
    rw [collectResults, List.filterMap_cons]
    have ih := collectResults_warnings rest
    rcases hr : collectResults rest with ⟨rs, ws⟩
    rw [hr] at ih
    rcases ho : o.result with e | df
    · simpa [ho] using ih
    · simpa [ho] using ih

/-- C2: for every list of settled chunk outcomes, the coordinator of
`fetch_gsc_data_parallel` completes as a total function; every row of
every chunk that succeeded is contained in the combined, deduplicated
table of step 3, and exactly the failed chunks are recorded — in settled
order — as non-fatal warning entries naming their date ranges, returned
alongside the data instead of propagating as exceptions. -/
theorem coordinator_partial_failure (outcomes : List ChunkOutcome)
    (filter_keywords filter_keywords_not : String) :
    (∀ o ∈ outcomes, ∀ df : List Row, o.result = .ok df →
      ∀ r ∈ df, r ∈ mergeStep (collectResults outcomes).1) ∧
    ((collectResults outcomes).2 = outcomes.filterMap
      (fun o => match o.result with
        | .error e => some (o.range, e)
        | .ok _ => none)) ∧
    (fetch_gsc_data_parallel outcomes filter_keywords filter_keywords_not).2 =
      (collectResults outcomes).2 := by
  refine ⟨fun o ho df hdf r hr => ?_, collectResults_warnings outcomes, rfl⟩
  exact mem_mergeStep.mpr (List.mem_flatten_of_mem
    (collectResults_ok_mem outcomes o ho df hdf) hr)

/-! ## Lemmas about the post-fetch filters -/

theorem mem_dropZeroClicksStep {l : List Row} {r : Row} :
    r ∈ dropZeroClicksStep l ↔ r ∈ l ∧ 0 < r.clicks := by
  rw [dropZeroClicksStep]
  by_cases h : l.isEmpty
  · rw [if_pos h]
    rcases List.isEmpty_iff.mp h with rfl
    simp
  · rw [if_neg h]
    simp

theorem mem_includeStep {fk : String} {l : List Row} {r : Row} :
    r ∈ includeStep fk l ↔ r ∈ l ∧ includeMatch fk r.query = true := by
  simp [includeStep]

theorem mem_foldl_filter (f : List Char → Row → Bool) :
    ∀ (kws : List (List Char)) (l : List Row) (r : Row),
      r ∈ kws.foldl (fun acc kw => acc.filter (fun x => f kw x)) l ↔
        r ∈ l ∧ ∀ kw ∈ kws, f kw r = true
  | [], l, r => by simp
  | kw :: kws, l, r => by
    rw [List.foldl_cons, mem_foldl_filter f kws (l.filter (fun x => f kw x)) r]
    simp only [List.mem_filter, List.mem_cons]
    constructor
    · rintro ⟨⟨h1, h2⟩, h3⟩
      refine ⟨h1, fun k hk => ?_⟩
      rcases hk with rfl | hk
      · exact h2
      · exact h3 k hk
    · rintro ⟨h1, h2⟩
      exact ⟨⟨h1, h2 kw (Or.inl rfl)⟩, fun k hk => h2 k (Or.inr hk)⟩

theorem mem_excludeStep {fkn : String} {l : List Row} {r : Row} :
    r ∈ excludeStep fkn l ↔
      r ∈ l ∧ ∀ kw ∈ splitOnComma fkn.data,
        containsTokenCI r.query.data (stripChars kw) = false := by
  rw [excludeStep,
    mem_foldl_filter (fun kw x => !(containsTokenCI x.query.data (stripChars kw)))]
  simp [Bool.not_eq_true']

/-! ## The regex-faithful filters coincide with the literal-token
filters on metacharacter-free keywords -/

theorem splitOnComma_ne_nil : ∀ l : List Char, splitOnComma l ≠ []
  | [] => by simp [splitOnComma]
  | c :: rest => by
    rw [splitOnComma]
    by_cases h : c = ','
    · rw [if_pos h]
      simp
    · rw [if_neg h]
      cases hs : splitOnComma rest with
      | nil => simp
      | cons p ps => simp

theorem compileBranch_of_no_meta :
    ∀ kw : List Char, (∀ c ∈ kw, isRegexMeta c = false) →
      compileBranch kw = some (kw.map RegexElem.lit)
  | [], _ => rfl
  | c :: rest, h => by
    have hc : isRegexMeta c = false := h c (List.mem_cons_self c rest)
    have hdot : ¬(c = '.') := by
      intro hcd
      rw [hcd] at hc
      exact absurd hc (by decide)
    rw [compileBranch,
      compileBranch_of_no_meta rest (fun d hd => h d (List.mem_cons_of_mem c hd))]
    simp [hdot, hc]

theorem splitOnBar_of_no_bar :
    ∀ k : List Char, (∀ c ∈ k, ¬(c = '|')) → splitOnBar k = [k]
  | [], _ => rfl
  | c :: rest, h => by
    rw [splitOnBar, if_neg (h c (List.mem_cons_self c rest)),
      splitOnBar_of_no_bar rest (fun d hd => h d (List.mem_cons_of_mem c hd))]

theorem splitOnBar_append_bar :
    ∀ (k t : List Char), (∀ c ∈ k, ¬(c = '|')) →
      splitOnBar (k ++ '|' :: t) = k :: splitOnBar t
  | [], t, _ => by
    rw [List.nil_append, splitOnBar, if_pos rfl]
  | c :: k, t, h => by
    rw [List.cons_append, splitOnBar,
      if_neg (h c (List.mem_cons_self c k)),
      splitOnBar_append_bar k t (fun d hd => h d (List.mem_cons_of_mem c hd))]

theorem splitOnBar_joinBar :
    ∀ kws : List (List Char), kws ≠ [] →
      (∀ kw ∈ kws, ∀ c ∈ kw, ¬(c = '|')) →
      splitOnBar (joinBar kws) = kws
  | [], hne, _ => absurd rfl hne
  | [k], _, h => splitOnBar_of_no_bar k (h k (List.mem_cons_self k []))
  | k :: k2 :: ks, _, h => by
    rw [show joinBar (k :: k2 :: ks) = k ++ '|' :: joinBar (k2 :: ks) from rfl,
      splitOnBar_append_bar k _ (h k (List.mem_cons_self _ _)),
      splitOnBar_joinBar (k2 :: ks) (by simp)
        (fun kw hkw => h kw (List.mem_cons_of_mem _ hkw))]

theorem foldr_compileBranch :
    ∀ kws : List (List Char), (∀ kw ∈ kws, ∀ c ∈ kw, isRegexMeta c = false) →
      kws.foldr (fun b acc =>
        match compileBranch b, acc with
        | some eb, some ebs => some (eb :: ebs)
        | _, _ => none) (some []) =
      some (kws.map (fun kw => kw.map RegexElem.lit))
  | [], _ => rfl
  | kw :: kws, h => by
    rw [List.foldr_cons,
      foldr_compileBranch kws (fun k hk => h k (List.mem_cons_of_mem _ hk)),
      compileBranch_of_no_meta kw (h kw (List.mem_cons_self _ _))]
    rfl

theorem no_meta_no_bar {k : List Char}
    (h : ∀ c ∈ k, isRegexMeta c = false) : ∀ c ∈ k, ¬(c = '|') := by
  intro c hc hcb
  have := h c hc
  rw [hcb] at this
  exact absurd this (by decide)

theorem compileAlternation_of_no_meta (kws : List (List Char))
    (hne : kws ≠ []) (h : ∀ kw ∈ kws, ∀ c ∈ kw, isRegexMeta c = false) :
    compileAlternation (joinBar kws) =
      some (kws.map (fun kw => kw.map RegexElem.lit)) := by
  rw [compileAlternation,
    splitOnBar_joinBar kws hne (fun kw hkw => no_meta_no_bar (h kw hkw))]
  exact foldr_compileBranch kws h

theorem compileAlternation_single (p : List Char)
    (h : ∀ c ∈ p, isRegexMeta c = false) :
    compileAlternation p = some [p.map RegexElem.lit] := by
  rw [compileAlternation, splitOnBar_of_no_bar p (no_meta_no_bar h),
    List.foldr_cons, List.foldr_nil, compileBranch_of_no_meta p h]

theorem charBeq_comm (a b : Char) : (a == b) = (b == a) := by
  rw [Bool.eq_iff_iff]
  constructor <;> intro hh
  · exact beq_iff_eq.mpr (beq_iff_eq.mp hh).symm
  · exact beq_iff_eq.mpr (beq_iff_eq.mp hh).symm

theorem branchMatchesAt_lits :
    ∀ (kw s : List Char),
      branchMatchesAt (kw.map RegexElem.lit) s = startsWithL (lowerL s) (lowerL kw)
  | [], s => by cases s <;> rfl
  | _ :: _, [] => rfl
  | c :: kw, d :: ds => by
    show ((Char.toLower c == Char.toLower d) &&
        branchMatchesAt (kw.map RegexElem.lit) ds) =
      ((Char.toLower d == Char.toLower c) && startsWithL (lowerL ds) (lowerL kw))
    rw [branchMatchesAt_lits kw ds, charBeq_comm]

theorem branchSearch_lits :
    ∀ (kw s : List Char),
      branchSearch (kw.map RegexElem.lit) s = containsSub (lowerL s) (lowerL kw)
  | kw, [] => by cases kw <;> rfl
  | kw, c :: rest => by
    show (branchMatchesAt (kw.map RegexElem.lit) (c :: rest) ||
        branchSearch (kw.map RegexElem.lit) rest) =
      (startsWithL (lowerL (c :: rest)) (lowerL kw) ||
        containsSub (lowerL rest) (lowerL kw))
    rw [branchMatchesAt_lits kw (c :: rest), branchSearch_lits kw rest]

theorem any_branch_lits (kws : List (List Char)) (q : List Char) :
    (kws.map (fun kw => kw.map RegexElem.lit)).any
        (fun es => branchSearch es q) =
      kws.any (fun kw => containsSub (lowerL q) (lowerL kw)) := by
  induction kws with
  | nil => rfl
  | cons kw kws ih =>
    simp only [List.map_cons, List.any_cons, ih, branchSearch_lits]

/-- C5 counterexample: pandas `str.contains` reads the include pattern
as a regular expression, so the include list "." keeps a row whose
query contains no literal "." at all — the filter does not keep
exactly the rows whose query contains a listed keyword as a
substring. -/
theorem include_filter_regex_counterexample :
    includeStepRe "." [rowRedShoes] = some [rowRedShoes] ∧
    containsTokenCI rowRedShoes.query.data ".".data = false ∧
    includeStep "." [rowRedShoes] = [] :=
  ⟨by decide, by decide, by decide⟩

/-- C5 (amended): for every include list whose stripped keywords are
free of regex metacharacters, the regex-faithful include filter
coincides with the literal-token filter, and that filter keeps exactly
the rows whose query case-insensitively contains at least one listed
keyword as a substring (logical OR); on query values {"red shoes",
"blue shoes", "red hat"} with include list "red", exactly the
"red shoes" and "red hat" rows are retained.  (For keywords with
regex metacharacters the source matches under full regex semantics or
raises `re.error`, as the counterexample shows for ".".) -/
theorem keyword_include_filter_correct (fk : String) (l : List Row) (r : Row)
    (hsafe : ∀ kw ∈ keywordTokens fk, ∀ c ∈ kw, isRegexMeta c = false) :
    includeStepRe fk l = some (includeStep fk l) ∧
    (r ∈ includeStep fk l ↔
      r ∈ l ∧ ∃ kw ∈ keywordTokens fk, containsTokenCI r.query.data kw = true) ∧
    includeStep "red" sampleRows = [rowRedShoes, rowRedHat] := by
  refine ⟨?_, ?_, by decide⟩
  · have hne : keywordTokens fk ≠ [] := by
      intro h0
      rw [keywordTokens] at h0
      exact splitOnComma_ne_nil fk.data (List.map_eq_nil_iff.mp h0)
    simp only [includeStepRe,
      compileAlternation_of_no_meta (keywordTokens fk) hne hsafe]
    congr 1
    rw [includeStep]
    apply List.filter_congr
    intro x hx
    rw [any_branch_lits, includeMatch]
    rfl
  · rw [mem_includeStep, includeMatch]
    simp

/-- C6 counterexample: pandas `str.contains` reads each exclusion
keyword as a regular expression, so the exclusion list "." drops a row
whose query contains no literal "." at all — the filter does not
retain exactly the rows containing none of the listed keywords. -/
theorem exclude_filter_regex_counterexample :
    excludeStepRe "." [rowRedShoes] = some [] ∧
    containsTokenCI rowRedShoes.query.data ".".data = false ∧
    excludeStep "." [rowRedShoes] = [rowRedShoes] :=
  ⟨by decide, by decide, by decide⟩

theorem reExcludeFold_agree :
    ∀ (kws : List (List Char)) (l : List Row),
      (∀ kw ∈ kws, ∀ c ∈ stripChars kw, isRegexMeta c = false) →
      kws.foldl reExcludeOne (some l) =
        some (kws.foldl (fun acc kw =>
          acc.filter (fun r => !(containsTokenCI r.query.data (stripChars kw)))) l)
  | [], _, _ => rfl
  | kw :: kws, l, h => by
    rw [List.foldl_cons, List.foldl_cons]
    have hstep : reExcludeOne (some l) kw =
        some (l.filter (fun r => !(containsTokenCI r.query.data (stripChars kw)))) := by
      simp only [reExcludeOne,
        compileAlternation_single (stripChars kw) (h kw (List.mem_cons_self _ _))]
      congr 1
      apply List.filter_congr
      intro x hx
      simp only [List.any_cons, List.any_nil, Bool.or_false, branchSearch_lits,
        containsTokenCI]
    rw [hstep]
    exact reExcludeFold_agree kws _ (fun k hk => h k (List.mem_cons_of_mem _ hk))

/-- C6 (amended): for every exclusion list whose stripped keywords are
free of regex metacharacters, the regex-faithful exclude loop
coincides with the literal-token loop, and that loop retains exactly
the rows whose query case-insensitively contains none of the listed
exclusion keywords (the AND of the negated exclusions); on query
values {"red shoes", "blue shoes", "red hat"} with exclude list "hat",
exactly the "red hat" row is dropped.  (For keywords with regex
metacharacters the source matches under full regex semantics or raises
`re.error`, as the counterexample shows for ".".) -/
theorem keyword_exclude_filter_correct (fkn : String) (l : List Row) (r : Row)
    (hsafe : ∀ kw ∈ splitOnComma fkn.data,
      ∀ c ∈ stripChars kw, isRegexMeta c = false) :
    excludeStepRe fkn l = some (excludeStep fkn l) ∧
    (r ∈ excludeStep fkn l ↔
      r ∈ l ∧ ∀ kw ∈ splitOnComma fkn.data,
        containsTokenCI r.query.data (stripChars kw) = false) ∧
    excludeStep "hat" sampleRows = [rowRedShoes, rowBlueShoes] :=
  ⟨reExcludeFold_agree (splitOnComma fkn.data) l hsafe, mem_excludeStep, by decide⟩

theorem mem_postProcess {fk fkn : String} {l : List Row} {r : Row} :
    r ∈ postProcess fk fkn l ↔
      r ∈ l ∧ 0 < r.clicks ∧
      (fk ≠ "" → includeMatch fk r.query = true) ∧
      (fkn ≠ "" → ∀ kw ∈ splitOnComma fkn.data,
        containsTokenCI r.query.data (stripChars kw) = false) := by
  simp only [postProcess]
  by_cases h1 : (dropZeroClicksStep l).isEmpty
  · rw [if_pos h1]
    have hempty : dropZeroClicksStep l = [] := List.isEmpty_iff.mp h1
    rw [hempty]
    constructor
    · intro h
      exact absurd h (List.not_mem_nil r)
    · rintro ⟨ha, hb, -, -⟩
      have hm := mem_dropZeroClicksStep.mpr ⟨ha, hb⟩
      rw [hempty] at hm
      exact absurd hm (List.not_mem_nil r)
  · rw [if_neg h1]
    by_cases h2 : fk ≠ ""
    · rw [if_pos h2]
      by_cases h3 : fkn ≠ ""
      · rw [if_pos h3, mem_excludeStep, mem_includeStep, mem_dropZeroClicksStep]
        constructor
        · rintro ⟨⟨⟨ha, hb⟩, hc⟩, hd⟩
          exact ⟨ha, hb, fun _ => hc, fun _ => hd⟩
        · rintro ⟨ha, hb, hc, hd⟩
          exact ⟨⟨⟨ha, hb⟩, hc h2⟩, hd h3⟩
      · rw [if_neg h3, mem_includeStep, mem_dropZeroClicksStep]
        constructor
        · rintro ⟨⟨ha, hb⟩, hc⟩
          exact ⟨ha, hb, fun _ => hc, fun hk => absurd hk h3⟩
        · rintro ⟨ha, hb, hc, -⟩
          exact ⟨⟨ha, hb⟩, hc h2⟩
    · rw [if_neg h2]
      by_cases h3 : fkn ≠ ""
      · rw [if_pos h3, mem_excludeStep, mem_dropZeroClicksStep]
        constructor
        · rintro ⟨⟨ha, hb⟩, hd⟩
          exact ⟨ha, hb, fun hk => absurd hk h2, fun _ => hd⟩
        · rintro ⟨ha, hb, -, hd⟩
          exact ⟨⟨ha, hb⟩, hd h3⟩
      · rw [if_neg h3, mem_dropZeroClicksStep]
        constructor
        · rintro ⟨ha, hb⟩
          exact ⟨ha, hb, fun hk => absurd hk h2, fun hk => absurd hk h3⟩
        · rintro ⟨ha, hb, -, -⟩
          exact ⟨ha, hb⟩

/-- C4: the zero-click filter step removes exactly the rows with
`clicks = 0` — after it, every row with `clicks = 0` is absent and no
row with `clicks > 0` has been removed — and it is applied
unconditionally in the parallel pipeline: every row of the final output
of `fetch_gsc_data_parallel` has `clicks > 0`, whatever the chunk
outcomes and keyword filters. -/
theorem zero_click_filter_correct (l : List Row) (outcomes : List ChunkOutcome)
    (filter_keywords filter_keywords_not : String) (r : Row) :
    (r ∈ dropZeroClicksStep l ↔ r ∈ l ∧ 0 < r.clicks) ∧
    (r ∈ (fetch_gsc_data_parallel outcomes filter_keywords filter_keywords_not).1 →
      0 < r.clicks) := by
  refine ⟨mem_dropZeroClicksStep, fun h => ?_⟩
  simp only [fetch_gsc_data_parallel] at h
  exact (mem_postProcess.mp h).2.1

theorem mem_flatten_of_perm {l1 l2 : List (List Row)} (h : List.Perm l1 l2)
    (r : Row) : r ∈ l1.flatten ↔ r ∈ l2.flatten := by
  simp only [List.mem_flatten]
  constructor <;> rintro ⟨t, ht, hr⟩
  · exact ⟨t, h.mem_iff.mp ht, hr⟩
  · exact ⟨t, h.mem_iff.mpr ht, hr⟩

/-- C8: for a fixed multiset of successful chunk tables, the content of
the merged-and-filtered output is completion-order independent: any two
permutations of the collected chunk-table list yield outputs containing
exactly the same rows (only row order may differ). -/
theorem merged_content_perm_invariant (res1 res2 : List (List Row))
    (hperm : List.Perm res1 res2) (filter_keywords filter_keywords_not : String)
    (r : Row) :
    (r ∈ postProcess filter_keywords filter_keywords_not (mergeStep res1) ↔
      r ∈ postProcess filter_keywords filter_keywords_not (mergeStep res2)) := by
  rw [mem_postProcess, mem_postProcess, mem_mergeStep, mem_mergeStep,
    mem_flatten_of_perm hperm r]

/-- Witness for the C8 theorem: a concrete two-chunk completion-order
swap, with the permutation hypothesis discharged by computation. -/
theorem merged_content_perm_invariant_witness :
    List.Perm [[rowRedShoes], [rowRedHat]] [[rowRedHat], [rowRedShoes]] ∧
    (rowRedShoes ∈ postProcess "" "" (mergeStep [[rowRedShoes], [rowRedHat]]) ↔
      rowRedShoes ∈ postProcess "" "" (mergeStep [[rowRedHat], [rowRedShoes]])) :=
  ⟨by decide, merged_content_perm_invariant _ _ (by decide) "" "" rowRedShoes⟩

/-! ## Lemmas about `compare_data` -/

theorem mem_compare_data {cur cmp : List Row} {m : CompRow} :
    m ∈ compare_data cur cmp ↔
      ∃ r ∈ cur, ∃ s ∈ cmp,
        r.page = s.page ∧ r.query = s.query ∧ m = joinRow r s := by
  simp only [compare_data, List.mem_flatMap, List.mem_map, List.mem_filter,
    Bool.and_eq_true, beq_iff_eq]
  constructor
  · rintro ⟨r, hr, s, ⟨hs, hp, hq⟩, rfl⟩
    exact ⟨r, hr, s, hs, hp, hq, rfl⟩
  · rintro ⟨r, hr, s, hs, hp, hq, rfl⟩
    exact ⟨r, hr, s, ⟨hs, hp, hq⟩, rfl⟩

/-- C7: `compare_data` is an inner join on the key tuple (page, query):
every output row arises from a current-side row and a compare-side row
with equal keys (so a key present on only one side contributes
nothing), each joined row satisfies
`clicks_diff = clicks_current - clicks_compare` and
`impressions_diff = impressions_current - impressions_compare`, and
when no keys overlap the result is the empty table rather than a
failure.  Concretely, current [(p1,q1,10,100)] joined with compare
[(p1,q1,4,40)] yields one row with clicks_diff = 6 and
impressions_diff = 60, and current [(p2,q2,5,50)] joined with an empty
compare table yields no row. -/
theorem compare_inner_join_correct (cur cmp : List Row) (m : CompRow) :
    (m ∈ compare_data cur cmp ↔
      ∃ r ∈ cur, ∃ s ∈ cmp,
        r.page = s.page ∧ r.query = s.query ∧ m = joinRow r s) ∧
    (∀ x ∈ compare_data cur cmp,
      x.clicks_diff = (x.clicks_current : Int) - (x.clicks_compare : Int) ∧
      x.impressions_diff =
        (x.impressions_current : Int) - (x.impressions_compare : Int)) ∧
    ((∀ r ∈ cur, ∀ s ∈ cmp, ¬(r.page = s.page ∧ r.query = s.query)) →
      compare_data cur cmp = []) ∧
    compare_data [rowP1Current] [rowP1Compare] =
      [joinRow rowP1Current rowP1Compare] ∧
    (joinRow rowP1Current rowP1Compare).clicks_diff = 6 ∧
    (joinRow rowP1Current rowP1Compare).impressions_diff = 60 ∧
    compare_data [rowP2Current] [] = [] := by
  refine ⟨mem_compare_data, fun x hx => ?_, fun hno => ?_,
    by decide, by decide, by decide, by decide⟩
  · rcases mem_compare_data.mp hx with ⟨r, -, s, -, -, -, rfl⟩
    simp [joinRow]
  · rw [List.eq_nil_iff_forall_not_mem]
    intro x hx
    rcases mem_compare_data.mp hx with ⟨r, hr, s, hs, hp, hq, -⟩
    exact hno r hr s hs ⟨hp, hq⟩

/-- C9 counterexample: there is no sanitization step in
`_fetch_chunk_threaded` — a user-supplied filter string that itself
consists of operator-like tokens is handed to the remote query layer
verbatim as the filter expression, with nothing stripped. -/
theorem filter_url_passed_verbatim :
    chunkQueryFilters "notContains foo" "All Devices" =
      [⟨"page", "contains", "notContains foo"⟩] ∧
    (chunkQueryFilters "notContains foo" "All Devices").map QFilter.expression =
      ["notContains foo"] :=
  ⟨by decide, by decide⟩

/-- C9 amended: `_fetch_chunk_threaded` applies no sanitization to the
user-supplied URL filter; instead, the operator of every filter it
passes to the remote query layer is one of the hard-coded constants
"contains" (page) or "equals" (device), so the remote call never
receives a user-supplied operator, while the page filter's expression
is exactly the raw `filter_url` string. -/
theorem query_filter_operator_hardcoded (filter_url device_type : String) :
    (∀ f ∈ chunkQueryFilters filter_url device_type,
      f.operator = "contains" ∨ f.operator = "equals") ∧
    (filter_url ≠ "" →
      QFilter.mk "page" "contains" filter_url ∈
        chunkQueryFilters filter_url device_type) ∧
    (∀ f ∈ chunkQueryFilters filter_url device_type,
      f.dimension = "page" → f.expression = filter_url) := by
  refine ⟨fun f hf => ?_, fun hu => ?_, fun f hf hdim => ?_⟩
  · rw [chunkQueryFilters] at hf
    rcases List.mem_append.mp hf with h | h
    · split_ifs at h with hu
      · simp only [List.mem_singleton] at h
        subst h
        left
        rfl
      · simp at h
    · split_ifs at h with hd
      · simp only [List.mem_singleton] at h
        subst h
        right
        rfl
      · simp at h
  · rw [chunkQueryFilters, if_pos hu]
    exact List.mem_append_left _ (List.mem_singleton.mpr rfl)
  · rw [chunkQueryFilters] at hf
    rcases List.mem_append.mp hf with h | h
    · split_ifs at h with hu
      · simp only [List.mem_singleton] at h
        subst h
        rfl
      · simp at h
    · split_ifs at h with hd
      · simp only [List.mem_singleton] at h
        subst h
        simp at hdim
      · simp at h

/-- Witness for the C9 amended theorem at a concrete input. -/
theorem query_filter_operator_hardcoded_witness :
    ("sub/folder" ≠ ("" : String)) ∧
    QFilter.mk "page" "contains" "sub/folder" ∈
      chunkQueryFilters "sub/folder" "mobile" :=
  ⟨by decide, (query_filter_operator_hardcoded "sub/folder" "mobile").2.1 (by decide)⟩

/-- C10: `fetch_compare_data_single` never propagates a fetch
exception: on any error it returns the empty table, and on success it
returns the fetched rows with the zero-click rows already removed, so
every row it ever returns has `clicks > 0` — the comparison side is
subject to the same zero-click policy as the main period. -/
theorem compare_fetch_never_raises (remote : Except String (List Row)) (r : Row) :
    (∀ e : String, fetch_compare_data_single (.error e) = []) ∧
    (∀ rows : List Row,
      r ∈ fetch_compare_data_single (.ok rows) ↔ r ∈ rows ∧ 0 < r.clicks) ∧
    (r ∈ fetch_compare_data_single remote → 0 < r.clicks) := by
  refine ⟨fun e => rfl, fun rows => by simp [fetch_compare_data_single], fun h => ?_⟩
  cases remote with
  | error e => simp [fetch_compare_data_single] at h
  | ok rows =>
    simp only [fetch_compare_data_single, List.mem_filter,
      decide_eq_true_eq] at h
    exact h.2

/-- Witness for the C2 theorem on the spec's partial-failure scenario:
four chunks of which the second raises a transport error — the rows of
the three successful chunks are in the merged table and exactly the
failed chunk is reported with its date range. -/
theorem coordinator_partial_failure_witness :
    rowRedShoes ∈ mergeStep (collectResults
      [⟨(738886, 738915), .ok [rowRedShoes]⟩,
       ⟨(738916, 738945), .error "transport error"⟩,
       ⟨(738946, 738975), .ok [rowRedHat]⟩,
       ⟨(738976, 738977), .ok [rowBlueShoes]⟩]).1 ∧
    (collectResults
      [⟨(738886, 738915), .ok [rowRedShoes]⟩,
       ⟨(738916, 738945), .error "transport error"⟩,
       ⟨(738946, 738975), .ok [rowRedHat]⟩,
       ⟨(738976, 738977), .ok [rowBlueShoes]⟩]).2 =
      [((738916, 738945), "transport error")] :=
  ⟨(coordinator_partial_failure
      [⟨(738886, 738915), .ok [rowRedShoes]⟩,
       ⟨(738916, 738945), .error "transport error"⟩,
       ⟨(738946, 738975), .ok [rowRedHat]⟩,
       ⟨(738976, 738977), .ok [rowBlueShoes]⟩] "" "").1
      ⟨(738886, 738915), .ok [rowRedShoes]⟩ (List.mem_cons_self _ _)
      [rowRedShoes] rfl rowRedShoes (by decide),
   by decide⟩

/-- Witness for the C4 theorem at concrete inputs: the zero-click row
is removed by the filter step and cannot occur in the pipeline
output. -/
theorem zero_click_filter_correct_witness :
    (rowRedHat ∈ dropZeroClicksStep [rowZeroClicks, rowRedHat] ↔
      rowRedHat ∈ [rowZeroClicks, rowRedHat] ∧ 0 < rowRedHat.clicks) ∧
    (rowZeroClicks ∈ (fetch_gsc_data_parallel
        [⟨(738886, 738915), .ok [rowZeroClicks, rowRedHat]⟩] "" "").1 →
      0 < rowZeroClicks.clicks) :=
  ⟨(zero_click_filter_correct [rowZeroClicks, rowRedHat] [] "" "" rowRedHat).1,
   (zero_click_filter_correct []
      [⟨(738886, 738915), .ok [rowZeroClicks, rowRedHat]⟩] "" ""
      rowZeroClicks).2⟩

/-- Witness for the C5 theorem at the spec's keyword-filter example;
the metacharacter-freeness hypothesis is discharged by computation. -/
theorem keyword_include_filter_correct_witness :
    (∀ kw ∈ keywordTokens "red", ∀ c ∈ kw, isRegexMeta c = false) ∧
    includeStepRe "red" sampleRows = some (includeStep "red" sampleRows) ∧
    (rowRedShoes ∈ includeStep "red" sampleRows ↔
      rowRedShoes ∈ sampleRows ∧
        ∃ kw ∈ keywordTokens "red",
          containsTokenCI rowRedShoes.query.data kw = true) ∧
    includeStep "red" sampleRows = [rowRedShoes, rowRedHat] :=
  ⟨by decide, keyword_include_filter_correct "red" sampleRows rowRedShoes (by decide)⟩

/-- Witness for the C6 theorem at the spec's keyword-filter example;
the metacharacter-freeness hypothesis is discharged by computation. -/
theorem keyword_exclude_filter_correct_witness :
    (∀ kw ∈ splitOnComma "hat".data, ∀ c ∈ stripChars kw, isRegexMeta c = false) ∧
    excludeStepRe "hat" sampleRows = some (excludeStep "hat" sampleRows) ∧
    (rowRedHat ∈ excludeStep "hat" sampleRows ↔
      rowRedHat ∈ sampleRows ∧ ∀ kw ∈ splitOnComma "hat".data,
        containsTokenCI rowRedHat.query.data (stripChars kw) = false) ∧
    excludeStep "hat" sampleRows = [rowRedShoes, rowBlueShoes] :=
  ⟨by decide, keyword_exclude_filter_correct "hat" sampleRows rowRedHat (by decide)⟩

/-- Witness for the C10 theorem at concrete inputs: a failed comparison
fetch yields the empty table, a successful one yields the rows with
zero-click rows removed. -/
theorem compare_fetch_never_raises_witness :
    fetch_compare_data_single (.error "quota exceeded") = [] ∧
    (rowRedHat ∈ fetch_compare_data_single (.ok [rowZeroClicks, rowRedHat]) ↔
      rowRedHat ∈ [rowZeroClicks, rowRedHat] ∧ 0 < rowRedHat.clicks) :=
  ⟨(compare_fetch_never_raises (.error "quota exceeded") rowRedHat).1
      "quota exceeded",
   (compare_fetch_never_raises (.ok [rowZeroClicks, rowRedHat]) rowRedHat).2.1
      [rowZeroClicks, rowRedHat]⟩
